import Mathlib

/-
Verification of the structural-comparison core of MutaView
(src/app/components/StructureViewer.tsx).

Modelling conventions:
- A JavaScript Map is embedded as an insertion-ordered association list
  (JsMap).  Map.prototype.set overwrites the value of an existing key in
  place and appends a fresh key at the end; Map.prototype.get returns the
  value of the (unique) matching key.  The JS runtime invariant that keys
  are unique is stated as JsMap.WF.
- JS number fields parsed out of a PDB text are embedded as exact
  rationals (every finite IEEE double is a rational); Math.sqrt is
  embedded as Real.sqrt, so displacement values live in the reals;
  floating-point rounding is idealised away.
- JS strings are ASCII here, so a string is modelled as a List Char;
  String.prototype.substring (on code units) coincides with drop/take.
- parseInt(s, 10) and parseFloat(s) parse the longest valid numeric
  prefix and yield NaN when no prefix parses; they are embedded as
  Option-valued functions (none for NaN).  The special literals
  Infinity/NaN accepted by parseFloat have no rational value and cannot
  occur in fixed-width PDB fields; they are outside the model.
-/

/- ================================================================== -/
/-  JS-style insertion-ordered maps                                    -/
/- ================================================================== -/

/-- An insertion-ordered association list embedding a JavaScript Map. -/
abbrev JsMap (κ α : Type) : Type := List (κ × α)

namespace JsMap

/-- Map.prototype.get: value of the first (in a well-formed map: only)
entry with the given key, none when absent. -/
def get {κ α : Type} [DecidableEq κ] (m : JsMap κ α) (k : κ) : Option α :=
  match m with
  | [] => none
  | (k₀, v₀) :: rest => if k₀ = k then some v₀ else get rest k

/-- Map.prototype.set: overwrite the entry with the given key in place,
or append a fresh entry at the end. -/
def set {κ α : Type} [DecidableEq κ] (m : JsMap κ α) (k : κ) (v : α) : JsMap κ α :=
  match m with
  | [] => [(k, v)]
  | (k₀, v₀) :: rest => if k₀ = k then (k, v) :: rest else (k₀, v₀) :: set rest k v

/-- The keys of a map, in insertion order. -/
def keys {κ α : Type} (m : JsMap κ α) : List κ := m.map Prod.fst

/-- The JS-runtime invariant of a Map: keys are pairwise distinct. -/
def WF {κ α : Type} (m : JsMap κ α) : Prop := m.keys.Nodup

instance {κ α : Type} [DecidableEq κ] (m : JsMap κ α) : Decidable m.WF :=
  List.nodupDecidable m.keys

end JsMap

/- ================================================================== -/
/-  Characters and JS string helpers                                   -/
/- ================================================================== -/

/-- ASCII whitespace removed by String.prototype.trim on PDB fields. -/
def isSpaceChar (c : Char) : Bool :=
  c = ' ' || c = '\t' || c = '\n' || c = '\r'

/-- String.prototype.split on a single separator character. -/
def splitOnChar (sep : Char) : List Char → List (List Char)
  | [] => [[]]
  | c :: rest =>
    match splitOnChar sep rest with
    | grp :: grps => if c = sep then [] :: grp :: grps else (c :: grp) :: grps
    | [] => [[c]]

/-- String.prototype.trim (ASCII fields only). -/
def trimChars (s : List Char) : List Char :=
  ((s.dropWhile isSpaceChar).reverse.dropWhile isSpaceChar).reverse

/-- String.prototype.startsWith. -/
def startsWithChars : List Char → List Char → Bool
  | [], _ => true
  | _ :: _, [] => false
  | p :: ps, c :: cs => p = c && startsWithChars ps cs

/-- String.prototype.substring a b (0-indexed, end-exclusive, clamped
to the string length, as in JS for a ≤ b). -/
def substrJS (s : List Char) (a b : Nat) : List Char :=
  (s.drop a).take (b - a)

/- ================================================================== -/
/-  JS numeric parsing (parseInt / parseFloat)                         -/
/- ================================================================== -/

/-- Value of a digit string, most significant first. -/
def digitsToNat (ds : List Char) : Nat :=
  ds.foldl (fun n c => 10 * n + (c.toNat - '0'.toNat)) 0

/-- Split a string into its maximal leading run of decimal digits and
the remainder. -/
def splitDigits (s : List Char) : List Char × List Char :=
  (s.takeWhile Char.isDigit, s.dropWhile Char.isDigit)

/-- Leading optional sign: the sign value and the remainder. -/
def splitSign (s : List Char) : Int × List Char :=
  match s with
  | '-' :: rest => (-1, rest)
  | '+' :: rest => (1, rest)
  | _ => (1, s)

/-- parseInt(s, 10) on an already-trimmed string: optional sign, then the
longest leading digit run; NaN (none) when that run is empty.  Trailing
non-digit characters are ignored. -/
def parseIntJS (s : List Char) : Option Int :=
  let (sg, rest) := splitSign s
  let (ds, _) := splitDigits rest
  if ds.isEmpty then none else some (sg * (digitsToNat ds : Int))

/-- Exponent part of a JS float literal: at a string that begins with
e or E followed by an optionally signed digit run, its integer value;
otherwise none (parseFloat then ignores the trailing characters). -/
def floatExponent (s : List Char) : Option Int :=
  match s with
  | 'e' :: rest | 'E' :: rest =>
    let (sg, rest') := splitSign rest
    let (ds, _) := splitDigits rest'
    if ds.isEmpty then none else some (sg * (digitsToNat ds : Int))
  | _ => none

/-- Powers of ten, kept as a plain recursion so concrete parses reduce
inside the kernel. -/
def pow10 : Nat → Nat
  | 0 => 1
  | n + 1 => 10 * pow10 n

/-- parseFloat(s) on an already-trimmed string: optional sign, integer
digits, optional fractional part, optional exponent; the longest valid
numeric prefix is taken and the rest ignored; NaN (none) when the
mantissa has no digit at all.  The exact rational value
sign * (intPart.fracPart) * 10^exponent is assembled as one fraction so
that concrete parses reduce inside the kernel. -/
def parseFloatJS (s : List Char) : Option ℚ :=
  let (sg, rest) := splitSign s
  let (intDs, rest₁) := splitDigits rest
  let (fracDs, rest₂) :=
    match rest₁ with
    | '.' :: afterDot => splitDigits afterDot
    | _ => ([], rest₁)
  if intDs.isEmpty && fracDs.isEmpty then none
  else
    let m : Nat := digitsToNat intDs * pow10 fracDs.length + digitsToNat fracDs
    some (match (floatExponent rest₂).getD 0 with
      | Int.ofNat n => mkRat (sg * (m * pow10 n : Nat)) (pow10 fracDs.length)
      | Int.negSucc n => mkRat (sg * (m : Nat)) (pow10 fracDs.length * pow10 (n + 1)))

/- ================================================================== -/
/-  Structure parser (StructureViewer.tsx lines 26-42)                 -/
/- ================================================================== -/

/-- A parsed coordinate triple, the value type of the map built by
parseCaAtoms. -/
structure Coord where
  x : ℚ
  y : ℚ
  z : ℚ
  deriving DecidableEq

/-- The record tag tested by line.startsWith("ATOM  "). -/
def atomRecordTag : List Char := ['A', 'T', 'O', 'M', ' ', ' ']

/-- One iteration of the parser loop body (lines 29-40): the entry a
line contributes, or none when the line is skipped (not an ATOM record,
atom name not CA, or residue index / any coordinate failing to parse). -/
def parsedEntry (line : List Char) : Option (Int × Coord) :=
  if ¬ startsWithChars atomRecordTag line then none
  else if trimChars (substrJS line 12 16) ≠ ['C', 'A'] then none
  else
    match parseIntJS (trimChars (substrJS line 22 26)),
          parseFloatJS (trimChars (substrJS line 30 38)),
          parseFloatJS (trimChars (substrJS line 38 46)),
          parseFloatJS (trimChars (substrJS line 46 54)) with
    | some resi, some x, some y, some z => some (resi, ⟨x, y, z⟩)
    | _, _, _, _ => none

/-- Fold step of the parser loop: insert the line's entry, or keep the
accumulator when the line is skipped. -/
def parseStep (atoms : JsMap Int Coord) (line : List Char) : JsMap Int Coord :=
  match parsedEntry line with
  | some (resi, c) => atoms.set resi c
  | none => atoms

/-- The parser loop over a list of lines. -/
def parseCaLines (lines : List (List Char)) : JsMap Int Coord :=
  lines.foldl parseStep []

/-- parseCaAtoms (lines 26-42): split the PDB text on newlines and fold
the loop body over the lines, starting from an empty map. -/
def parseCaAtoms (pdb : String) : JsMap Int Coord :=
  parseCaLines (splitOnChar '\n' pdb.data)

/- ================================================================== -/
/-  Displacement calculator (StructureViewer.tsx lines 45-59)          -/
/- ================================================================== -/

/-- Math.sqrt(dx*dx + dy*dy + dz*dz) for one residue pair (lines 53-56):
the Euclidean distance between two coordinate triples. -/
noncomputable def euclDist (a b : Coord) : ℝ :=
  Real.sqrt (((a.x - b.x) * (a.x - b.x) + (a.y - b.y) * (a.y - b.y)
    + (a.z - b.z) * (a.z - b.z) : ℚ) : ℝ)

/-- Loop body of computePerResidueRmsd (lines 50-57): look the residue up
in the mutant map, skip it when absent, otherwise store the distance. -/
noncomputable def rmsdStep (mutantCa : JsMap Int Coord) (rmsdMap : JsMap Int ℝ)
    (p : Int × Coord) : JsMap Int ℝ :=
  match mutantCa.get p.1 with
  | none => rmsdMap
  | some mCoord => rmsdMap.set p.1 (euclDist p.2 mCoord)

/-- computePerResidueRmsd (lines 45-59): fold the loop body over the
wild-type map's entries, starting from an empty map. -/
noncomputable def computePerResidueRmsd (wildCa mutantCa : JsMap Int Coord) :
    JsMap Int ℝ :=
  wildCa.foldl (rmsdStep mutantCa) []

/- ================================================================== -/
/-  Displacement color ramp (StructureViewer.tsx lines 244-267)        -/
/- ================================================================== -/

/-- An rgb(r,g,b) color as the integer channel triple carried by the
string the callback returns (the string encoding is injective in the
triple, so color equality is triple equality). -/
structure Rgb where
  r : ℤ
  g : ℤ
  b : ℤ
  deriving DecidableEq

/-- Math.round: round half toward positive infinity. -/
noncomputable def jsRound (x : ℝ) : ℤ := ⌊x + 1 / 2⌋

/-- Linear interpolation from a at 0 to b at 1, the form of the two ramp
segments white-to-yellow and yellow-to-red. -/
noncomputable def lerpR (a b t : ℝ) : ℝ := a + (b - a) * t

/-- The colorfunc closure passed to the mutant viewer's cartoon style
(lines 248-264; the identical closure is repeated at lines 274-288):
white at 0 blending to yellow below 2 angstroms, yellow blending to red
up to 5, red beyond. -/
noncomputable def colorfunc (rmsd : ℝ) : Rgb :=
  if rmsd < 2 then
    { r := jsRound 255, g := jsRound 255, b := jsRound (255 * (1 - rmsd / 2)) }
  else
    { r := 255, g := jsRound (255 * (1 - min ((rmsd - 2) / 3) 1)), b := 0 }

/-- The per-atom callback body (line 249): rmsdMap.get(atom.resi) ?? 0
fed into the ramp, so residues without a displacement entry fall back to
the value 0. -/
noncomputable def cartoonColorfunc (rmsdMap : JsMap Int ℝ) (resi : Int) : Rgb :=
  colorfunc ((rmsdMap.get resi).getD 0)

/- ================================================================== -/
/-  Confidence ramp (spec model)                                       -/
/- ================================================================== -/

/-- A color with exact rational channels, for the interpolated stops of
the confidence ramp. -/
structure RgbQ where
  r : ℚ
  g : ℚ
  b : ℚ
  deriving DecidableEq

/-- Linear interpolation between two rationals. -/
def lerpQ (a b t : ℚ) : ℚ := a + (b - a) * t

/-- Channelwise linear interpolation between two colors. -/
def lerpRgbQ (c d : RgbQ) (t : ℚ) : RgbQ :=
  ⟨lerpQ c.r d.r t, lerpQ c.g d.g t, lerpQ c.b d.b t⟩

/-- Modelled from the spec: the confidence color ramp.  The repository
only configures it (StructureViewer.tsx lines 153-185 pass colorscheme
prop b, gradient roygb, min 50, max 100 to the external 3Dmol engine,
whose gradient code is not part of this repository) and draws its legend
(lines 374-384: a five-stop gradient blue, green, yellow, orange, red
labelled 50 low to 100 high).  Following the spec's five-stop hue
progression on [50, 100] with linear interpolation between evenly spaced
stops and clamping outside the ends. -/
def confidenceColor (v : ℚ) : RgbQ :=
  if v ≤ 50 then ⟨0, 0, 255⟩
  else if v ≤ 62.5 then lerpRgbQ ⟨0, 0, 255⟩ ⟨0, 255, 0⟩ ((v - 50) / 12.5)
  else if v ≤ 75 then lerpRgbQ ⟨0, 255, 0⟩ ⟨255, 255, 0⟩ ((v - 62.5) / 12.5)
  else if v ≤ 87.5 then lerpRgbQ ⟨255, 255, 0⟩ ⟨255, 136, 0⟩ ((v - 75) / 12.5)
  else if v ≤ 100 then lerpRgbQ ⟨255, 136, 0⟩ ⟨255, 0, 0⟩ ((v - 87.5) / 12.5)
  else ⟨255, 0, 0⟩

/- ================================================================== -/
/-  Render orchestrator lifecycle (lines 62-99 and 124-327)            -/
/- ================================================================== -/

/-- State of one rendering surface across rendering cycles.  A cycle is
one run of the main effect (lines 124-327), identified by a fresh id
(each run captures fresh closures).  load3Dmol (lines 62-99) registers a
load callback guarded by the cycle's cancelled flag; the effect cleanup
(lines 307-326) sets the flag, destroys the cycle's viewers and removes
its imperative nodes.  A cancelled cycle's callback firing and no-oping
models both guard mechanisms of the source (the removed event listener
and the cancelled check inside fire). -/
structure OrchState where
  scriptLoaded : Bool
  pendingCallbacks : List Nat
  cancelledCycles : List Nat
  liveViewers : List Nat
  constructedEver : List Nat
  currentCycle : Option Nat

/-- No script, no cycles: the state before the component first mounts. -/
def initState : OrchState :=
  { scriptLoaded := false, pendingCallbacks := [], cancelledCycles := [],
    liveViewers := [], constructedEver := [], currentCycle := none }

/-- A cycle's load callback (fire, lines 65-67, and the guarded body at
lines 137-140): if the cycle was cancelled do nothing, otherwise create
the viewer instance for this cycle (lines 192-205). -/
def fireCallback (s : OrchState) (c : Nat) : OrchState :=
  if c ∈ s.cancelledCycles then s
  else { s with liveViewers := s.liveViewers ++ [c],
                constructedEver := s.constructedEver ++ [c] }

/-- The effect cleanup (lines 307-326): mark the current cycle
cancelled, destroy its viewer instances and remove its nodes. -/
def cleanupCycle (s : OrchState) : OrchState :=
  match s.currentCycle with
  | none => s
  | some c => { s with cancelledCycles := c :: s.cancelledCycles,
                       liveViewers := s.liveViewers.filter (fun v => v ≠ c),
                       currentCycle := none }

/-- An input change: React runs the previous effect's cleanup, then the
effect body for the new cycle, which calls load3Dmol (line 137): fire at
once when the script is already there (lines 69-72), otherwise register
a load listener (lines 78-93). -/
def startCycle (s : OrchState) (c : Nat) : OrchState :=
  let s₁ := cleanupCycle s
  let s₂ := { s₁ with currentCycle := some c }
  if s₂.scriptLoaded then fireCallback s₂ c
  else { s₂ with pendingCallbacks := s₂.pendingCallbacks ++ [c] }

/-- The script's load event: every registered listener fires in
registration order (each one checking its own cancelled flag). -/
def scriptLoad (s : OrchState) : OrchState :=
  let s₁ := { s with scriptLoaded := true }
  let s₂ := s₁.pendingCallbacks.foldl fireCallback s₁
  { s₂ with pendingCallbacks := [] }

/- ================================================================== -/
/-  Specification-side description for the overwrite claim             -/
/- ================================================================== -/

/-- Specification-side description (for comparison with parseCaAtoms):
the coordinates of the LAST parsed CA record with the given residue
index, in line order — deeper entries take precedence. -/
def lastEntrySpec : List (Int × Coord) → Int → Option Coord
  | [], _ => none
  | (k, c) :: rest, resi =>
    match lastEntrySpec rest resi with
    | some c' => some c'
    | none => if k = resi then some c else none

/- ================================================================== -/
/-  Helper lemmas: JsMap                                               -/
/- ================================================================== -/

namespace JsMap

theorem get_set {κ α : Type} [DecidableEq κ] (m : JsMap κ α) (k k' : κ) (v : α) :
    (m.set k v).get k' = if k = k' then some v else m.get k' := by
  induction m with
  | nil => simp [get, set]
  | cons p rest ih =>
    obtain ⟨k₀, v₀⟩ := p
    by_cases h₀ : k₀ = k
    · subst h₀
      by_cases h₁ : k₀ = k'
      · subst h₁; simp [get, set]
      · simp [get, set, h₁]
    · by_cases h₁ : k₀ = k'
      · subst h₁
        have hne : ¬ k = k₀ := fun h => h₀ h.symm
        simp [get, set, h₀, hne]
      · simp [get, set, h₀, h₁, ih]

theorem get_eq_none_of_not_mem {κ α : Type} [DecidableEq κ]
    {m : JsMap κ α} {k : κ} (h : k ∉ m.keys) : m.get k = none := by
  induction m with
  | nil => rfl
  | cons p rest ih =>
    obtain ⟨k₀, v₀⟩ := p
    simp only [keys, List.map_cons, List.mem_cons] at h
    push_neg at h
    have hne : ¬ k₀ = k := fun hk => h.1 hk.symm
    simpa [get, hne] using ih (by simpa [keys] using h.2)

theorem set_of_not_mem {κ α : Type} [DecidableEq κ]
    {m : JsMap κ α} {k : κ} (v : α) (h : k ∉ m.keys) :
    m.set k v = m ++ [(k, v)] := by
  induction m with
  | nil => rfl
  | cons p rest ih =>
    obtain ⟨k₀, v₀⟩ := p
    simp only [keys, List.map_cons, List.mem_cons] at h
    push_neg at h
    have hne : ¬ k₀ = k := fun hk => h.1 hk.symm
    simp [set, hne, ih (by simpa [keys] using h.2)]

theorem keys_set_of_mem {κ α : Type} [DecidableEq κ]
    {m : JsMap κ α} {k : κ} (v : α) (h : k ∈ m.keys) :
    (m.set k v).keys = m.keys := by
  induction m with
  | nil => simp [keys] at h
  | cons p rest ih =>
    obtain ⟨k₀, v₀⟩ := p
    by_cases h₀ : k₀ = k
    · subst h₀; simp [set, keys]
    · have hcons : k ∈ k₀ :: keys rest := h
      have hmem : k ∈ keys rest := by
        rcases List.mem_cons.mp hcons with h' | h'
        · exact absurd h'.symm h₀
        · exact h'
      calc keys (set ((k₀, v₀) :: rest) k v)
          = keys ((k₀, v₀) :: set rest k v) := by simp [set, h₀]
        _ = k₀ :: keys (set rest k v) := rfl
        _ = k₀ :: keys rest := by rw [ih hmem]

theorem WF_set {κ α : Type} [DecidableEq κ]
    {m : JsMap κ α} (k : κ) (v : α) (h : m.WF) : (m.set k v).WF := by
  by_cases hk : k ∈ m.keys
  · show ((m.set k v).keys).Nodup
    rw [keys_set_of_mem v hk]
    exact h
  · show ((m.set k v).keys).Nodup
    rw [set_of_not_mem v hk]
    show ((m ++ [(k, v)]).map Prod.fst).Nodup
    rw [List.map_append, List.nodup_append]
    refine ⟨h, by simp, ?_⟩
    intro a ha hb
    simp only [List.map_cons, List.map_nil, List.mem_singleton] at hb
    subst hb
    exact hk ha

end JsMap

/- ================================================================== -/
/-  Helper lemmas: parser                                              -/
/- ================================================================== -/

theorem parseStep_skip {atoms : JsMap Int Coord} {line : List Char}
    (h : parsedEntry line = none) : parseStep atoms line = atoms := by
  simp [parseStep, h]

theorem foldl_parseStep_skip_all {ls : List (List Char)}
    (h : ∀ l ∈ ls, parsedEntry l = none) :
    ∀ acc : JsMap Int Coord, ls.foldl parseStep acc = acc := by
  induction ls with
  | nil => intro acc; rfl
  | cons l rest ih =>
    intro acc
    rw [List.foldl_cons, parseStep_skip (h l (by simp))]
    exact ih (fun l' hl' => h l' (by simp [hl'])) acc

theorem foldl_parseStep_get (ls : List (List Char)) :
    ∀ (acc : JsMap Int Coord) (resi : Int),
    (ls.foldl parseStep acc).get resi
      = Option.or (lastEntrySpec (ls.filterMap parsedEntry) resi) (acc.get resi) := by
  induction ls with
  | nil => intro acc resi; simp [lastEntrySpec, Option.or]
  | cons l rest ih =>
    intro acc resi
    rw [List.foldl_cons]
    cases hpe : parsedEntry l with
    | none => rw [parseStep_skip hpe, ih, List.filterMap_cons_none hpe]
    | some p =>
      obtain ⟨k, c⟩ := p
      rw [List.filterMap_cons_some hpe]
      have hstep : parseStep acc l = acc.set k c := by simp [parseStep, hpe]
      rw [hstep, ih]
      cases hlast : lastEntrySpec (rest.filterMap parsedEntry) resi with
      | some c' => simp [lastEntrySpec, hlast, Option.or]
      | none =>
        rw [JsMap.get_set]
        by_cases hk : k = resi
        · simp [lastEntrySpec, hlast, hk, Option.or]
        · simp [lastEntrySpec, hlast, hk, Option.or]

theorem WF_foldl_parseStep (ls : List (List Char)) :
    ∀ acc : JsMap Int Coord, acc.WF → (ls.foldl parseStep acc).WF := by
  induction ls with
  | nil => intro acc h; exact h
  | cons l rest ih =>
    intro acc h
    rw [List.foldl_cons]
    refine ih _ ?_
    cases hpe : parsedEntry l with
    | none => rwa [parseStep_skip hpe]
    | some p =>
      obtain ⟨k, c⟩ := p
      have hstep : parseStep acc l = acc.set k c := by simp [parseStep, hpe]
      rw [hstep]
      exact JsMap.WF_set k c h

/- ================================================================== -/
/-  Helper lemmas: displacement calculator                             -/
/- ================================================================== -/

theorem foldl_rmsdStep_get (mutant : JsMap Int Coord) :
    ∀ (wild : JsMap Int Coord), wild.WF →
    ∀ (acc : JsMap Int ℝ) (resi : Int),
    (wild.foldl (rmsdStep mutant) acc).get resi
      = Option.or
          ((wild.get resi).bind fun wc => (mutant.get resi).map fun mc => euclDist wc mc)
          (acc.get resi) := by
  intro wild
  induction wild with
  | nil => intro _ acc resi; simp [JsMap.get, Option.or]
  | cons p rest ih =>
    intro hwf acc resi
    obtain ⟨k, wc⟩ := p
    have hwfcons : (k :: JsMap.keys rest).Nodup := hwf
    have hwf' : JsMap.WF rest := (List.nodup_cons.mp hwfcons).2
    have hknotin : k ∉ JsMap.keys rest := (List.nodup_cons.mp hwfcons).1
    rw [List.foldl_cons, ih hwf']
    by_cases hk : k = resi
    · subst hk
      have hrest : JsMap.get rest k = none := JsMap.get_eq_none_of_not_mem hknotin
      rw [hrest]
      cases hm : JsMap.get mutant k with
      | none =>
        have hstep : rmsdStep mutant acc (k, wc) = acc := by simp [rmsdStep, hm]
        simp [hstep, JsMap.get, Option.or]
      | some mc =>
        have hstep : rmsdStep mutant acc (k, wc) = acc.set k (euclDist wc mc) := by
          simp [rmsdStep, hm]
        rw [hstep, JsMap.get_set]
        simp [JsMap.get, hm, Option.or]
    · have hgetcons : JsMap.get ((k, wc) :: rest) resi = JsMap.get rest resi := by
        simp [JsMap.get, hk]
      rw [hgetcons]
      have haccget : (rmsdStep mutant acc (k, wc)).get resi = acc.get resi := by
        cases hm : JsMap.get mutant k with
        | none => simp [rmsdStep, hm]
        | some mc => simp [rmsdStep, hm, JsMap.get_set, hk]
      rw [haccget]

/- ================================================================== -/
/-  Helper lemmas: orchestrator lifecycle                              -/
/- ================================================================== -/

theorem fireCallback_of_cancelled {s : OrchState} {c : Nat}
    (h : c ∈ s.cancelledCycles) : fireCallback s c = s := by
  simp [fireCallback, h]

theorem fireCallback_of_not_cancelled {s : OrchState} {c : Nat}
    (h : c ∉ s.cancelledCycles) :
    fireCallback s c = { s with liveViewers := s.liveViewers ++ [c],
                                constructedEver := s.constructedEver ++ [c] } := by
  simp [fireCallback, h]

theorem foldl_fire_all_cancelled :
    ∀ (l : List Nat) (s : OrchState), (∀ x ∈ l, x ∈ s.cancelledCycles) →
    l.foldl fireCallback s = s := by
  intro l
  induction l with
  | nil => intro s _; rfl
  | cons x xs ih =>
    intro s h
    rw [List.foldl_cons, fireCallback_of_cancelled (h x (by simp))]
    exact ih s (fun y hy => h y (by simp [hy]))

theorem foldl_startCycle_spec :
    ∀ (ids : List Nat) (hne : ids ≠ []) (s : OrchState),
    s.scriptLoaded = false → s.liveViewers = [] →
    ids.foldl startCycle s =
      { scriptLoaded := false,
        pendingCallbacks := s.pendingCallbacks ++ ids,
        cancelledCycles := ids.dropLast.reverse ++ s.currentCycle.toList ++ s.cancelledCycles,
        liveViewers := [],
        constructedEver := s.constructedEver,
        currentCycle := some (ids.getLast hne) } := by
  intro ids
  induction ids with
  | nil => intro hne; exact absurd rfl hne
  | cons c rest ih =>
    intro hne s hscript hlive
    have hstart : startCycle s c =
        { scriptLoaded := false,
          pendingCallbacks := s.pendingCallbacks ++ [c],
          cancelledCycles := s.currentCycle.toList ++ s.cancelledCycles,
          liveViewers := [],
          constructedEver := s.constructedEver,
          currentCycle := some c } := by
      cases hcur : s.currentCycle with
      | none => simp [startCycle, cleanupCycle, hcur, hscript, hlive]
      | some c' => simp [startCycle, cleanupCycle, hcur, hscript, hlive]
    rw [List.foldl_cons]
    rcases eq_or_ne rest [] with hr | hr
    · subst hr
      rw [List.foldl_nil, hstart]
      simp [List.getLast]
    · rw [ih hr (startCycle s c) (by rw [hstart]) (by rw [hstart])]
      rw [hstart]
      have hlast : (c :: rest).getLast hne = rest.getLast hr :=
        List.getLast_cons hr
      obtain ⟨d, ds, rfl⟩ := List.exists_cons_of_ne_nil hr
      simp [hlast, List.reverse_cons]

/- ================================================================== -/
/-  Helper lemmas: color functions                                     -/
/- ================================================================== -/

theorem jsRound_eq_of (x : ℝ) (n : ℤ) (h₁ : (n : ℝ) ≤ x + 1 / 2)
    (h₂ : x + 1 / 2 < n + 1) : jsRound x = n := by
  unfold jsRound
  exact Int.floor_eq_iff.mpr ⟨h₁, h₂⟩

theorem jsRound_255 : jsRound 255 = 255 :=
  jsRound_eq_of 255 255 (by norm_num) (by norm_num)

theorem jsRound_zero : jsRound 0 = 0 :=
  jsRound_eq_of 0 0 (by norm_num) (by norm_num)

theorem colorfunc_lt_two {v : ℝ} (h : v < 2) :
    colorfunc v = ⟨255, 255, jsRound (255 * (1 - v / 2))⟩ := by
  unfold colorfunc
  rw [if_pos h, jsRound_255]

theorem colorfunc_ge_two {v : ℝ} (h : 2 ≤ v) :
    colorfunc v = ⟨255, jsRound (255 * (1 - min ((v - 2) / 3) 1)), 0⟩ := by
  unfold colorfunc
  rw [if_neg (not_lt.mpr h)]

theorem colorfunc_zero_eval : colorfunc 0 = ⟨255, 255, 255⟩ := by
  rw [colorfunc_lt_two (by norm_num)]
  have hb : (255 : ℝ) * (1 - 0 / 2) = 255 := by norm_num
  rw [hb, jsRound_255]

theorem colorfunc_two_eval : colorfunc 2 = ⟨255, 255, 0⟩ := by
  rw [colorfunc_ge_two (by norm_num)]
  have hm : min (((2 : ℝ) - 2) / 3) 1 = 0 := by norm_num
  rw [hm]
  have hg : (255 : ℝ) * (1 - 0) = 255 := by norm_num
  rw [hg, jsRound_255]

theorem colorfunc_five_clamp {v : ℝ} (h : 5 ≤ v) : colorfunc v = ⟨255, 0, 0⟩ := by
  rw [colorfunc_ge_two (by linarith)]
  have hm : min ((v - 2) / 3) 1 = 1 := min_eq_right (by linarith)
  rw [hm]
  have hg : (255 : ℝ) * (1 - 1) = 0 := by norm_num
  rw [hg, jsRound_zero]

theorem colorfunc_neg_one_eval : colorfunc (-1) = ⟨255, 255, 383⟩ := by
  rw [colorfunc_lt_two (by norm_num)]
  have hb : (255 : ℝ) * (1 - (-1) / 2) = 765 / 2 := by norm_num
  rw [hb]
  rw [jsRound_eq_of (765 / 2) 383 (by norm_num) (by norm_num)]

/- ================================================================== -/
/-  Helper lemmas: Euclidean distance                                  -/
/- ================================================================== -/

theorem euclDist_nonneg (a b : Coord) : 0 ≤ euclDist a b :=
  Real.sqrt_nonneg _

theorem euclDist_comm (a b : Coord) : euclDist a b = euclDist b a := by
  unfold euclDist
  have h : (a.x - b.x) * (a.x - b.x) + (a.y - b.y) * (a.y - b.y)
        + (a.z - b.z) * (a.z - b.z)
      = (b.x - a.x) * (b.x - a.x) + (b.y - a.y) * (b.y - a.y)
        + (b.z - a.z) * (b.z - a.z) := by ring
  rw [h]

theorem euclDist_eq_zero_iff (a b : Coord) : euclDist a b = 0 ↔ a = b := by
  unfold euclDist
  rw [Real.sqrt_eq_zero']
  constructor
  · intro h
    have hq : (a.x - b.x) * (a.x - b.x) + (a.y - b.y) * (a.y - b.y)
        + (a.z - b.z) * (a.z - b.z) ≤ 0 := by exact_mod_cast h
    have hx : a.x = b.x := by
      have h0 : (a.x - b.x) * (a.x - b.x) = 0 :=
        le_antisymm (by nlinarith [mul_self_nonneg (a.y - b.y), mul_self_nonneg (a.z - b.z)])
          (mul_self_nonneg _)
      exact sub_eq_zero.mp (mul_self_eq_zero.mp h0)
    have hy : a.y = b.y := by
      have h0 : (a.y - b.y) * (a.y - b.y) = 0 :=
        le_antisymm (by nlinarith [mul_self_nonneg (a.x - b.x), mul_self_nonneg (a.z - b.z)])
          (mul_self_nonneg _)
      exact sub_eq_zero.mp (mul_self_eq_zero.mp h0)
    have hz : a.z = b.z := by
      have h0 : (a.z - b.z) * (a.z - b.z) = 0 :=
        le_antisymm (by nlinarith [mul_self_nonneg (a.x - b.x), mul_self_nonneg (a.y - b.y)])
          (mul_self_nonneg _)
      exact sub_eq_zero.mp (mul_self_eq_zero.mp h0)
    obtain ⟨ax, ay, az⟩ := a
    obtain ⟨bx, by', bz⟩ := b
    simp only [Coord.mk.injEq]
    exact ⟨hx, hy, hz⟩
  · intro h
    subst h
    have h0 : ((a.x - a.x) * (a.x - a.x) + (a.y - a.y) * (a.y - a.y)
        + (a.z - a.z) * (a.z - a.z) : ℚ) = 0 := by ring
    rw [h0]
    norm_num

/-- Scenario-B distance: moving (0,0,0) to (0,0,3) is 3 angstroms. -/
theorem euclDist_scenarioB : euclDist ⟨0, 0, 0⟩ ⟨0, 0, 3⟩ = 3 := by
  unfold euclDist
  have h0 : (((0 : ℚ) - 0) * ((0 : ℚ) - 0) + ((0 : ℚ) - 0) * ((0 : ℚ) - 0)
      + ((0 : ℚ) - 3) * ((0 : ℚ) - 3) : ℚ) = 9 := by norm_num
  rw [h0]
  rw [show ((9 : ℚ) : ℝ) = (3 : ℝ) ^ 2 by norm_num]
  exact Real.sqrt_sq (by norm_num)

/- ================================================================== -/
/-  Helper lemmas: confidence ramp evaluations                         -/
/- ================================================================== -/

theorem confidenceColor_50 : confidenceColor 50 = ⟨0, 0, 255⟩ := by
  norm_num [confidenceColor]

theorem confidenceColor_100 : confidenceColor 100 = ⟨255, 0, 0⟩ := by
  norm_num [confidenceColor, lerpRgbQ, lerpQ]

theorem confidenceColor_75 : confidenceColor 75 = ⟨255, 255, 0⟩ := by
  norm_num [confidenceColor, lerpRgbQ, lerpQ]

/- ================================================================== -/
/-  Claim theorems                                                     -/
/- ================================================================== -/

/-- C1: for every pair of well-formed residue-coordinate maps,
computePerResidueRmsd is defined exactly on the intersection of the two
key sets; on that intersection its value is the Euclidean distance
between the two coordinate triples, which is non-negative and zero
exactly when the coordinates are identical; a residue present in only
one map contributes no entry. -/
theorem computePerResidueRmsd_intersection_dist
    (wild mutant : JsMap Int Coord) (hw : wild.WF) (resi : Int) :
    ((computePerResidueRmsd wild mutant).get resi
        = (wild.get resi).bind fun wc => (mutant.get resi).map fun mc => euclDist wc mc)
    ∧ (((computePerResidueRmsd wild mutant).get resi).isSome
        ↔ (wild.get resi).isSome ∧ (mutant.get resi).isSome)
    ∧ (∀ d : ℝ, (computePerResidueRmsd wild mutant).get resi = some d → 0 ≤ d)
    ∧ (∀ wc mc : Coord, wild.get resi = some wc → mutant.get resi = some mc →
        (computePerResidueRmsd wild mutant).get resi = some (euclDist wc mc)
        ∧ (euclDist wc mc = 0 ↔ wc = mc)) := by
  have hchar : (computePerResidueRmsd wild mutant).get resi
      = (wild.get resi).bind fun wc => (mutant.get resi).map fun mc => euclDist wc mc := by
    have h := foldl_rmsdStep_get mutant wild hw [] resi
    rw [show JsMap.get ([] : JsMap Int ℝ) resi = none from rfl, Option.or_none] at h
    exact h
  refine ⟨hchar, ?_, ?_, ?_⟩
  · rw [hchar]
    cases hwg : wild.get resi <;> cases hmg : mutant.get resi <;>
      simp_all
  · intro d hd
    rw [hchar] at hd
    cases hwg : wild.get resi with
    | none => rw [hwg] at hd; simp at hd
    | some wc =>
      cases hmg : mutant.get resi with
      | none => rw [hwg, hmg] at hd; simp at hd
      | some mc =>
        rw [hwg, hmg] at hd
        simp at hd
        rw [← hd]
        exact euclDist_nonneg wc mc
  · intro wc mc hwc hmc
    refine ⟨?_, euclDist_eq_zero_iff wc mc⟩
    rw [hchar, hwc, hmc]
    rfl

/-- C1 witness: Scenario B, residue 10 moved from (0,0,0) to (0,0,3);
the displacement entry is the Euclidean distance, which is 3. -/
theorem computePerResidueRmsd_intersection_dist_witness :
    JsMap.WF ([((10 : Int), (⟨0, 0, 0⟩ : Coord)), (11, ⟨1, 0, 0⟩)] : JsMap Int Coord)
    ∧ (computePerResidueRmsd
          [((10 : Int), (⟨0, 0, 0⟩ : Coord)), (11, ⟨1, 0, 0⟩)]
          [((10 : Int), (⟨0, 0, 3⟩ : Coord)), (12, ⟨5, 5, 5⟩)]).get 10
        = some (euclDist ⟨0, 0, 0⟩ ⟨0, 0, 3⟩)
    ∧ euclDist ⟨0, 0, 0⟩ ⟨0, 0, 3⟩ = 3 :=
  ⟨by decide,
   ((computePerResidueRmsd_intersection_dist
        [((10 : Int), (⟨0, 0, 0⟩ : Coord)), (11, ⟨1, 0, 0⟩)]
        [((10 : Int), (⟨0, 0, 3⟩ : Coord)), (12, ⟨5, 5, 5⟩)]
        (by decide) 10).2.2.2 ⟨0, 0, 0⟩ ⟨0, 0, 3⟩ (by decide) (by decide)).1,
   euclDist_scenarioB⟩

/-- C6: on well-formed maps the two opposite displacement computations
agree on every residue lookup (the distance is symmetric), although they
are computed independently. -/
theorem computePerResidueRmsd_symmetric (A B : JsMap Int Coord)
    (hA : A.WF) (hB : B.WF) (resi : Int) :
    (computePerResidueRmsd A B).get resi = (computePerResidueRmsd B A).get resi := by
  have e1 : (computePerResidueRmsd A B).get resi
      = Option.or ((A.get resi).bind fun wc => (B.get resi).map fun mc => euclDist wc mc)
          (JsMap.get ([] : JsMap Int ℝ) resi) := foldl_rmsdStep_get B A hA [] resi
  have e2 : (computePerResidueRmsd B A).get resi
      = Option.or ((B.get resi).bind fun wc => (A.get resi).map fun mc => euclDist wc mc)
          (JsMap.get ([] : JsMap Int ℝ) resi) := foldl_rmsdStep_get A B hB [] resi
  rw [e1, e2]
  cases hag : A.get resi <;> cases hbg : B.get resi <;>
    simp [Option.or, euclDist_comm]

/-- C6 witness: a shared residue in two concrete one-residue maps. -/
theorem computePerResidueRmsd_symmetric_witness :
    JsMap.WF ([((10 : Int), (⟨0, 0, 0⟩ : Coord))] : JsMap Int Coord)
    ∧ (computePerResidueRmsd [((10 : Int), (⟨0, 0, 0⟩ : Coord))]
          [((10 : Int), (⟨1, 2, 2⟩ : Coord))]).get 10
      = (computePerResidueRmsd [((10 : Int), (⟨1, 2, 2⟩ : Coord))]
          [((10 : Int), (⟨0, 0, 0⟩ : Coord))]).get 10 :=
  ⟨by decide,
   computePerResidueRmsd_symmetric _ _ (by decide) (by decide) 10⟩

/-- C8: the parser is a pure function of the structure text (two calls
on the same text give the same map), and the displacement result depends
only on the content of the two input maps, not on their iteration
order. -/
theorem parse_and_rmsd_deterministic :
    (∀ pdb : String, parseCaAtoms pdb = parseCaAtoms pdb)
    ∧ (∀ A A' B B' : JsMap Int Coord, A.WF → A'.WF →
        (∀ k, A.get k = A'.get k) → (∀ k, B.get k = B'.get k) →
        ∀ k, (computePerResidueRmsd A B).get k = (computePerResidueRmsd A' B').get k) := by
  refine ⟨fun _ => rfl, ?_⟩
  intro A A' B B' hA hA' hAA hBB k
  have e1 : (computePerResidueRmsd A B).get k
      = Option.or ((A.get k).bind fun wc => (B.get k).map fun mc => euclDist wc mc)
          (JsMap.get ([] : JsMap Int ℝ) k) := foldl_rmsdStep_get B A hA [] k
  have e2 : (computePerResidueRmsd A' B').get k
      = Option.or ((A'.get k).bind fun wc => (B'.get k).map fun mc => euclDist wc mc)
          (JsMap.get ([] : JsMap Int ℝ) k) := foldl_rmsdStep_get B' A' hA' [] k
  rw [e1, e2, hAA k, hBB k]

/-- C8 witness: the same two entries in the opposite insertion order give
the same displacement lookup against the same partner map. -/
theorem parse_and_rmsd_deterministic_witness :
    JsMap.WF ([((1 : Int), (⟨0, 0, 0⟩ : Coord)), (2, ⟨1, 1, 1⟩)] : JsMap Int Coord)
    ∧ (computePerResidueRmsd [((1 : Int), (⟨0, 0, 0⟩ : Coord)), (2, ⟨1, 1, 1⟩)]
          [((1 : Int), (⟨3, 4, 0⟩ : Coord))]).get 1
      = (computePerResidueRmsd [((2 : Int), (⟨1, 1, 1⟩ : Coord)), (1, ⟨0, 0, 0⟩)]
          [((1 : Int), (⟨3, 4, 0⟩ : Coord))]).get 1 :=
  ⟨by decide,
   parse_and_rmsd_deterministic.2
     [((1 : Int), (⟨0, 0, 0⟩ : Coord)), (2, ⟨1, 1, 1⟩)]
     [((2 : Int), (⟨1, 1, 1⟩ : Coord)), (1, ⟨0, 0, 0⟩)]
     [((1 : Int), (⟨3, 4, 0⟩ : Coord))]
     [((1 : Int), (⟨3, 4, 0⟩ : Coord))]
     (by decide) (by decide)
     (by
       intro k
       simp only [JsMap.get]
       rcases eq_or_ne (1 : Int) k with h1 | h1 <;>
         rcases eq_or_ne (2 : Int) k with h2 | h2
       · exfalso; omega
       · simp [h1, h2]
       · simp [h1, h2]
       · simp [h1, h2])
     (fun _ => rfl) 1⟩

/-- C2 counterexample: the displacement color function has no lower
clamp.  At the value -1 the blue channel is round(255 * (1 - (-1)/2)) =
383, so the color differs from the color at 0 (white), refuting the
claim that any value at most 0 maps to the same color as 0. -/
theorem colorfunc_no_lower_clamp : colorfunc (-1) ≠ colorfunc 0 := by
  rw [colorfunc_neg_one_eval, colorfunc_zero_eval]
  intro h
  have hb : (383 : ℤ) = 255 := congrArg Rgb.b h
  norm_num at hb

/-- C2 (amended): value 0 maps to white; every value below 2 (with no
lower clamp: negative values, which cannot arise from a displacement
map, overshoot the blue channel) maps to red and green 255 with the blue
channel the rounded linear interpolant from 255 at 0 to 0 at 2; value
2.0 maps exactly to the yellow midpoint color; on [2, 5] the green
channel is the rounded linear interpolant from 255 at 2 to 0 at 5; and
any value at least 5 maps to the same color as value 5. -/
theorem colorfunc_ramp_amended :
    colorfunc 0 = ⟨255, 255, 255⟩
    ∧ (∀ v : ℝ, v < 2 → colorfunc v = ⟨255, 255, jsRound (lerpR 255 0 (v / 2))⟩)
    ∧ colorfunc 2 = ⟨255, 255, 0⟩
    ∧ (∀ v : ℝ, 2 ≤ v → v ≤ 5 → colorfunc v = ⟨255, jsRound (lerpR 255 0 ((v - 2) / 3)), 0⟩)
    ∧ (∀ v : ℝ, 5 ≤ v → colorfunc v = colorfunc 5) := by
  refine ⟨colorfunc_zero_eval, ?_, colorfunc_two_eval, ?_, ?_⟩
  · intro v hv
    rw [colorfunc_lt_two hv]
    have h : (255 : ℝ) * (1 - v / 2) = lerpR 255 0 (v / 2) := by unfold lerpR; ring
    rw [h]
  · intro v h2 h5
    rw [colorfunc_ge_two h2]
    have hm : min ((v - 2) / 3) 1 = (v - 2) / 3 := min_eq_left (by linarith)
    rw [hm]
    have h : (255 : ℝ) * (1 - (v - 2) / 3) = lerpR 255 0 ((v - 2) / 3) := by
      unfold lerpR; ring
    rw [h]
  · intro v h5
    rw [colorfunc_five_clamp h5, colorfunc_five_clamp (le_refl 5)]

/-- C2 witness: the amended ramp at the concrete values -1 (no lower
clamp, blue channel from the interpolant) and 7 (upper clamp to the
color at 5). -/
theorem colorfunc_ramp_amended_witness :
    ((-1 : ℝ) < 2 ∧ colorfunc (-1) = ⟨255, 255, jsRound (lerpR 255 0 ((-1) / 2))⟩)
    ∧ (5 ≤ (7 : ℝ) ∧ colorfunc 7 = colorfunc 5) :=
  ⟨⟨by norm_num, colorfunc_ramp_amended.2.1 (-1) (by norm_num)⟩,
   ⟨by norm_num, colorfunc_ramp_amended.2.2.2.2 7 (by norm_num)⟩⟩

/-- C3: Scenario A.  On a structure text with one CA coordinate line for
residue 10 with coordinates (1.0, 2.0, 3.0) and confidence 87.50 in
columns 61-66, the parser returns exactly the map sending 10 to
(1, 2, 3). -/
theorem parseCaAtoms_scenarioA :
    parseCaAtoms "ATOM      1  CA  ALA A  10       1.000   2.000   3.000  1.00 87.50"
      = [(10, ⟨1, 2, 3⟩)] := by decide

/-- C4: the parser is total and tolerant.  The Lean embedding is total
by construction, and: the empty input yields the empty map; an input
whose every line is not a coordinate record yields the empty map; and a
line whose residue index or any coordinate fails to parse contributes no
entry (removing it from the line list leaves the result unchanged). -/
theorem parseCaAtoms_total_tolerant :
    parseCaAtoms "" = []
    ∧ (∀ pdb : String,
        (∀ line ∈ splitOnChar '\n' pdb.data, startsWithChars atomRecordTag line = false) →
        parseCaAtoms pdb = [])
    ∧ (∀ (ls₁ ls₂ : List (List Char)) (line : List Char),
        parsedEntry line = none →
        parseCaLines (ls₁ ++ line :: ls₂) = parseCaLines (ls₁ ++ ls₂)) := by
  refine ⟨rfl, ?_, ?_⟩
  · intro pdb h
    unfold parseCaAtoms
    exact foldl_parseStep_skip_all
      (fun l hl => by simp [parsedEntry, h l hl]) []
  · intro ls₁ ls₂ line h
    unfold parseCaLines
    rw [List.foldl_append, List.foldl_cons, parseStep_skip h, ← List.foldl_append]

/-- C4 witness: a text of two non-coordinate lines parses to the empty
map, and an ATOM CA record whose residue-index field does not parse as a
number contributes no entry. -/
theorem parseCaAtoms_total_tolerant_witness :
    parseCaAtoms "HEADER    MUTAVIEW\nREMARK  1 TEST" = []
    ∧ parseCaLines (["REMARK  1".data]
        ++ "ATOM      1  CA  ALA A  xx       1.000   2.000   3.000  1.00 87.50".data
          :: ["REMARK  2".data])
      = parseCaLines (["REMARK  1".data] ++ ["REMARK  2".data]) :=
  ⟨parseCaAtoms_total_tolerant.2.1 _ (by decide),
   parseCaAtoms_total_tolerant.2.2 _ _ _ (by decide)⟩

/-- C7: when the per-atom color callback is invoked for a residue with
no entry in the displacement map, it falls back to the value 0 and
returns the lowest-severity color, white. -/
theorem cartoonColorfunc_default_white (rmsdMap : JsMap Int ℝ) (resi : Int)
    (h : rmsdMap.get resi = none) :
    cartoonColorfunc rmsdMap resi = colorfunc 0
    ∧ cartoonColorfunc rmsdMap resi = ⟨255, 255, 255⟩ := by
  have h0 : cartoonColorfunc rmsdMap resi = colorfunc 0 := by
    unfold cartoonColorfunc
    rw [h]
    rfl
  exact ⟨h0, h0.trans colorfunc_zero_eval⟩

/-- C7 witness: residue 10 is absent from a concrete one-entry
displacement map and is colored white. -/
theorem cartoonColorfunc_default_white_witness :
    JsMap.get ([((3 : Int), (1 : ℝ))] : JsMap Int ℝ) 10 = none
    ∧ cartoonColorfunc [((3 : Int), (1 : ℝ))] 10 = ⟨255, 255, 255⟩ :=
  ⟨rfl, (cartoonColorfunc_default_white [((3 : Int), (1 : ℝ))] 10 rfl).2⟩

/-- C9 counterexample: on the five-stop confidence ramp the value 75
lands on the middle stop (yellow), whose green channel 255 exceeds the
green channel 0 of both extreme colors, so the color at 75 is not
strictly between the two extremes component-wise. -/
theorem confidenceColor_not_componentwise_between :
    (confidenceColor 50).g = 0 ∧ (confidenceColor 100).g = 0
    ∧ (confidenceColor 75).g = 255
    ∧ ¬(min (confidenceColor 50).g (confidenceColor 100).g < (confidenceColor 75).g
        ∧ (confidenceColor 75).g < max (confidenceColor 50).g (confidenceColor 100).g) := by
  rw [confidenceColor_50, confidenceColor_100, confidenceColor_75]
  norm_num

/-- C9 (amended): the values 100 and 50 map to the two extreme ramp
colors (red and blue), and the value 75 maps to the middle stop yellow,
a color equal to neither extreme (though not component-wise between
them, the ramp being a hue progression). -/
theorem confidenceColor_extremes_amended :
    confidenceColor 100 = ⟨255, 0, 0⟩
    ∧ confidenceColor 50 = ⟨0, 0, 255⟩
    ∧ confidenceColor 75 = ⟨255, 255, 0⟩
    ∧ confidenceColor 75 ≠ confidenceColor 100
    ∧ confidenceColor 75 ≠ confidenceColor 50 := by
  refine ⟨confidenceColor_100, confidenceColor_50, confidenceColor_75, ?_, ?_⟩
  · rw [confidenceColor_75, confidenceColor_100]
    intro h
    have hg : (255 : ℚ) = 0 := congrArg RgbQ.g h
    norm_num at hg
  · rw [confidenceColor_75, confidenceColor_50]
    intro h
    have hr : (255 : ℚ) = 0 := congrArg RgbQ.r h
    norm_num at hr

/-- C10: the parser's lookup is the last parsed CA record with that
residue index in line order (later records overwrite earlier ones), and
the resulting map holds at most one entry per residue index. -/
theorem parseCaAtoms_last_record_wins (pdb : String) (resi : Int) :
    (parseCaAtoms pdb).get resi
      = lastEntrySpec ((splitOnChar '\n' pdb.data).filterMap parsedEntry) resi
    ∧ JsMap.WF (parseCaAtoms pdb) := by
  constructor
  · have h := foldl_parseStep_get (splitOnChar '\n' pdb.data) [] resi
    rw [show JsMap.get ([] : JsMap Int Coord) resi = none from rfl, Option.or_none] at h
    exact h
  · exact WF_foldl_parseStep _ [] List.nodup_nil

theorem foldl_fire_split (l₁ : List Nat) (c : Nat) (s : OrchState)
    (hall : ∀ x ∈ l₁, x ∈ s.cancelledCycles) (hc : c ∉ s.cancelledCycles) :
    (l₁ ++ [c]).foldl fireCallback s
      = { s with liveViewers := s.liveViewers ++ [c],
                 constructedEver := s.constructedEver ++ [c] } := by
  rw [List.foldl_append, foldl_fire_all_cancelled l₁ s hall,
    List.foldl_cons, List.foldl_nil, fireCallback_of_not_cancelled hc]

/-- C5: any sequence of input changes racing a pending engine load ends
with the stale load callbacks no-oping.  Folding any nonempty duplicate-
free sequence of rendering cycles over the initial state (script not yet
loaded) and then delivering the script-load event leaves exactly one
live viewer instance — the one for the last cycle — and the viewer of
every superseded cycle is never constructed at any point. -/
theorem orchestrator_stale_callback_noop (ids : List Nat)
    (hnd : ids.Nodup) (hne : ids ≠ []) :
    (scriptLoad (ids.foldl startCycle initState)).liveViewers = [ids.getLast hne]
    ∧ (scriptLoad (ids.foldl startCycle initState)).constructedEver = [ids.getLast hne]
    ∧ ∀ c ∈ ids, c ≠ ids.getLast hne →
        c ∉ (scriptLoad (ids.foldl startCycle initState)).constructedEver := by
  have hfold := foldl_startCycle_spec ids hne initState rfl rfl
  have hsplit : ids.dropLast ++ [ids.getLast hne] = ids :=
    List.dropLast_append_getLast hne
  have hlastnotdrop : ids.getLast hne ∉ ids.dropLast := by
    intro hmem
    have hnd' : (ids.dropLast ++ [ids.getLast hne]).Nodup := by rw [hsplit]; exact hnd
    have hdisj := (List.nodup_append.mp hnd').2.2
    exact hdisj hmem (List.mem_singleton.mpr rfl)
  have hmain : scriptLoad (ids.foldl startCycle initState)
      = { scriptLoaded := true,
          pendingCallbacks := [],
          cancelledCycles := ids.dropLast.reverse,
          liveViewers := [ids.getLast hne],
          constructedEver := [ids.getLast hne],
          currentCycle := some (ids.getLast hne) } := by
    rw [hfold]
    unfold scriptLoad
    simp only [initState, Option.toList, List.append_nil, List.nil_append]
    have hrun := foldl_fire_split ids.dropLast (ids.getLast hne)
      { scriptLoaded := true, pendingCallbacks := ids,
        cancelledCycles := ids.dropLast.reverse, liveViewers := [],
        constructedEver := [], currentCycle := some (ids.getLast hne) }
      (fun x hx => by simpa using List.mem_reverse.mpr hx)
      (by simpa using fun hmem => hlastnotdrop (List.mem_reverse.mp hmem))
    rw [hsplit] at hrun
    rw [hrun]
    simp
  rw [hmain]
  refine ⟨rfl, rfl, ?_⟩
  intro c _ hcne hcmem
  exact hcne (List.mem_singleton.mp hcmem)

/-- C5 witness: cycle 1 starts while the script is pending, cycle 2
supersedes it, then the script loads; only cycle 2's viewer is ever
constructed and it is the single live instance. -/
theorem orchestrator_stale_callback_noop_witness :
    ([1, 2] : List Nat).Nodup
    ∧ (scriptLoad (([1, 2] : List Nat).foldl startCycle initState)).liveViewers = [2]
    ∧ (scriptLoad (([1, 2] : List Nat).foldl startCycle initState)).constructedEver = [2] :=
  ⟨by decide,
   (orchestrator_stale_callback_noop [1, 2] (by decide) (by decide)).1,
   (orchestrator_stale_callback_noop [1, 2] (by decide) (by decide)).2.1⟩
